import Mathlib

/-!
# Verification of the minio-cleaner pipeline (src/main.go)

Shallow embedding of the bucket-cleanup pipeline:

* object metadata and the run counters (the four `int64` counters of
  `main`, updated with `sync/atomic`; the counts involved are bounded by
  the number of listed objects, far below 2^63, so plain `Int` models
  them exactly — no wrap-around is reachable);
* the worker-goroutine body (lines 147-176) as a pure per-object step
  `processObject`, plus its sequential iteration `runSeq`;
* the progress-reporter tick body (lines 123-141) as `reporterTick`;
* the whole concurrent pipeline (enumerator goroutine lines 186-212,
  worker pool, progress reporter, orchestrator lines 215-220) as a
  small-step transition relation `Step` over `SysState`, with
  `Reachable` the set of states reachable from `initState`.

Time is modelled as an integer timestamp (e.g. Unix nanoseconds):
`time.Time.After` is the strict order `<` on those integers.
The MinIO client is an external capability: the two listing calls are
the two input lists of `Env`, and `RemoveObject` is the oracle
`deleteRes : String → Option String` (`none` = success, `some msg` =
failure with reason `msg`), keyed by object key.
-/

namespace MinioCleaner

/-- Metadata of one listed object (`minio.ObjectInfo`: Key, Size,
LastModified), as consumed by the worker goroutines. -/
structure ObjectInfo where
  key : String
  size : Int
  lastModified : Int
deriving Repr, DecidableEq

/-- One entry of a listing stream: `minio.ObjectInfo` including its
`Err` field (`none` = valid entry, `some msg` = per-item listing
error). -/
structure ListEntry where
  err : Option String
  info : ObjectInfo
deriving Repr, DecidableEq

/-- The four shared `int64` counters of `main` (lines 113-116):
`totalFiles`, `processedFiles`, `deletedFiles`, `deletedSize`. -/
structure Counters where
  totalFiles : Int
  processedFiles : Int
  deletedFiles : Int
  deletedSize : Int
deriving Repr, DecidableEq

/-- The zero-initialised counters at run start. -/
def Counters.zero : Counters := ⟨0, 0, 0, 0⟩

/-- The cleanup configuration fields the pipeline core reads
(`cfg.Cleanup`), with the derived threshold timestamp
(`thresholdTime`, line 104) in place of `MaxAge`. -/
structure Cfg where
  workers : Nat
  minSize : Int
  threshold : Int
  dryRun : Bool
deriving Repr, DecidableEq

/-- One log line relevant to the pipeline (the `log.Printf` calls of
`main`), abstracted to its kind and the data it carries. -/
inductive LogEntry where
  | listError (msg : String)
  | totalCount (n : Int)
  | candidate (key : String) (size : Int) (lastModified : Int)
  | deleteSuccess (key : String)
  | deleteFailure (key : String) (msg : String)
  | progressLine (processed : Int) (total : Int) (deleted : Int) (size : Int)
  | summaryLine (total : Int) (processed : Int) (deleted : Int) (size : Int)
deriving Repr, DecidableEq

/-- `true` exactly for per-item listing-error log lines (line 191 /
line 205). -/
def LogEntry.isListError : LogEntry → Bool
  | .listError _ => true
  | _ => false

/-- `true` exactly for progress lines (line 133). -/
def LogEntry.isProgress : LogEntry → Bool
  | .progressLine _ _ _ _ => true
  | _ => false

/-- Result of one worker iteration on one object: the updated counters,
the log lines it emitted, and how many `RemoveObject` calls it issued. -/
structure WorkerEffect where
  counters : Counters
  logs : List LogEntry
  deleteCalls : Nat
deriving Repr, DecidableEq

/-- The body of the worker-goroutine loop (lines 147-176) for one
dequeued object: skip (counting it processed) if too small (line 149)
or too recent (line 155, `LastModified.After(thresholdTime)` is the
strict `<`); otherwise log the candidate (line 161), and unless
`dryRun` call `RemoveObject` (line 166), logging the outcome and on
success bumping `deletedFiles`/`deletedSize` (lines 171-172); in every
branch `processedFiles` is incremented once (lines 150, 156, 175). -/
def processObject (cfg : Cfg) (deleteRes : String → Option String)
    (c : Counters) (obj : ObjectInfo) : WorkerEffect :=
  if obj.size < cfg.minSize then
    ⟨{ c with processedFiles := c.processedFiles + 1 }, [], 0⟩
  else if cfg.threshold < obj.lastModified then
    ⟨{ c with processedFiles := c.processedFiles + 1 }, [], 0⟩
  else
    let candLog := LogEntry.candidate obj.key obj.size obj.lastModified
    if cfg.dryRun then
      ⟨{ c with processedFiles := c.processedFiles + 1 }, [candLog], 0⟩
    else
      match deleteRes obj.key with
      | some msg =>
          ⟨{ c with processedFiles := c.processedFiles + 1 },
            [candLog, .deleteFailure obj.key msg], 1⟩
      | none =>
          ⟨{ c with processedFiles := c.processedFiles + 1,
                    deletedFiles := c.deletedFiles + 1,
                    deletedSize := c.deletedSize + obj.size },
            [candLog, .deleteSuccess obj.key], 1⟩

/-- Sequential iteration of `processObject` over a list of dequeued
objects, accumulating counters, logs and the number of deletion calls. -/
def runSeq (cfg : Cfg) (deleteRes : String → Option String)
    (c : Counters) : List ObjectInfo → WorkerEffect
  | [] => ⟨c, [], 0⟩
  | obj :: rest =>
      let e := processObject cfg deleteRes c obj
      let r := runSeq cfg deleteRes e.counters rest
      ⟨r.counters, e.logs ++ r.logs, e.deleteCalls + r.deleteCalls⟩

/-- The body of one progress-reporter tick (lines 126-140): read the
counters; emit a progress line iff `totalFiles > 0` (line 131); leave
the loop iff `processedFiles >= totalFiles && totalFiles > 0`
(line 138). Returns (emitted line if any, whether the loop breaks). -/
def reporterTick (processed total deleted size : Int) :
    Option LogEntry × Bool :=
  let emitted :=
    if 0 < total then some (LogEntry.progressLine processed total deleted size)
    else none
  (emitted, decide (total ≤ processed) && decide (0 < total))

/-- Characterisation of the worker's deletion path: `true` iff the
object passes both filter checks and the run is not a dry run, i.e.
iff the worker issues a `RemoveObject` call for it. -/
def deleteAttempt (cfg : Cfg) (obj : ObjectInfo) : Bool :=
  !decide (obj.size < cfg.minSize) &&
    !decide (cfg.threshold < obj.lastModified) && !cfg.dryRun

/-- Characterisation of a successful deletion: the worker issues the
deletion call and the capability reports success. -/
def deleteHappens (cfg : Cfg) (d : String → Option String)
    (obj : ObjectInfo) : Bool :=
  deleteAttempt cfg obj && (d obj.key).isNone

theorem processObject_totalFiles (cfg : Cfg) (d : String → Option String)
    (c : Counters) (obj : ObjectInfo) :
    (processObject cfg d c obj).counters.totalFiles = c.totalFiles := by
  unfold processObject
  split_ifs <;> try rfl
  rcases hk : d obj.key with _ | m <;> rfl

theorem processObject_processedFiles (cfg : Cfg) (d : String → Option String)
    (c : Counters) (obj : ObjectInfo) :
    (processObject cfg d c obj).counters.processedFiles
      = c.processedFiles + 1 := by
  unfold processObject
  split_ifs <;> try rfl
  rcases hk : d obj.key with _ | m <;> rfl

theorem processObject_deletedFiles (cfg : Cfg) (d : String → Option String)
    (c : Counters) (obj : ObjectInfo) :
    (processObject cfg d c obj).counters.deletedFiles
      = c.deletedFiles + (if deleteHappens cfg d obj then 1 else 0) := by
  by_cases h1 : obj.size < cfg.minSize
  · simp [processObject, deleteHappens, deleteAttempt, h1]
  by_cases h2 : cfg.threshold < obj.lastModified
  · simp [processObject, deleteHappens, deleteAttempt, h1, h2]
  by_cases h3 : cfg.dryRun
  · simp [processObject, deleteHappens, deleteAttempt, h1, h2, h3]
  · rcases hk : d obj.key with _ | m <;>
      simp [processObject, deleteHappens, deleteAttempt, h1, h2, h3, hk]

theorem processObject_deletedSize (cfg : Cfg) (d : String → Option String)
    (c : Counters) (obj : ObjectInfo) :
    (processObject cfg d c obj).counters.deletedSize
      = c.deletedSize + (if deleteHappens cfg d obj then obj.size else 0) := by
  by_cases h1 : obj.size < cfg.minSize
  · simp [processObject, deleteHappens, deleteAttempt, h1]
  by_cases h2 : cfg.threshold < obj.lastModified
  · simp [processObject, deleteHappens, deleteAttempt, h1, h2]
  by_cases h3 : cfg.dryRun
  · simp [processObject, deleteHappens, deleteAttempt, h1, h2, h3]
  · rcases hk : d obj.key with _ | m <;>
      simp [processObject, deleteHappens, deleteAttempt, h1, h2, h3, hk]

theorem processObject_deleteCalls (cfg : Cfg) (d : String → Option String)
    (c : Counters) (obj : ObjectInfo) :
    (processObject cfg d c obj).deleteCalls
      = if deleteAttempt cfg obj then 1 else 0 := by
  by_cases h1 : obj.size < cfg.minSize
  · simp [processObject, deleteAttempt, h1]
  by_cases h2 : cfg.threshold < obj.lastModified
  · simp [processObject, deleteAttempt, h1, h2]
  by_cases h3 : cfg.dryRun
  · simp [processObject, deleteAttempt, h1, h2, h3]
  · rcases hk : d obj.key with _ | m <;>
      simp [processObject, deleteAttempt, h1, h2, h3, hk]

theorem runSeq_totalFiles (cfg : Cfg) (d : String → Option String)
    (objs : List ObjectInfo) :
    ∀ c, (runSeq cfg d c objs).counters.totalFiles = c.totalFiles := by
  induction objs with
  | nil => intro c; rfl
  | cons obj rest ih =>
      intro c
      simp only [runSeq]
      rw [ih, processObject_totalFiles]

theorem runSeq_processedFiles (cfg : Cfg) (d : String → Option String)
    (objs : List ObjectInfo) :
    ∀ c, (runSeq cfg d c objs).counters.processedFiles
      = c.processedFiles + (objs.length : Int) := by
  induction objs with
  | nil => intro c; simp [runSeq]
  | cons obj rest ih =>
      intro c
      simp only [runSeq]
      rw [ih, processObject_processedFiles]
      simp only [List.length_cons]
      push_cast
      ring

theorem runSeq_deletedFiles (cfg : Cfg) (d : String → Option String)
    (objs : List ObjectInfo) :
    ∀ c, (runSeq cfg d c objs).counters.deletedFiles
      = c.deletedFiles
          + ((objs.filter (deleteHappens cfg d)).length : Int) := by
  induction objs with
  | nil => intro c; simp [runSeq]
  | cons obj rest ih =>
      intro c
      simp only [runSeq]
      rw [ih, processObject_deletedFiles, List.filter_cons]
      by_cases h : deleteHappens cfg d obj <;> simp [h] <;> push_cast <;> ring

theorem runSeq_deletedSize (cfg : Cfg) (d : String → Option String)
    (objs : List ObjectInfo) :
    ∀ c, (runSeq cfg d c objs).counters.deletedSize
      = c.deletedSize
          + ((objs.filter (deleteHappens cfg d)).map ObjectInfo.size).sum := by
  induction objs with
  | nil => intro c; simp [runSeq]
  | cons obj rest ih =>
      intro c
      simp only [runSeq]
      rw [ih, processObject_deletedSize, List.filter_cons]
      by_cases h : deleteHappens cfg d obj <;> simp [h] <;> ring

theorem runSeq_deleteCalls (cfg : Cfg) (d : String → Option String)
    (objs : List ObjectInfo) :
    ∀ c, (runSeq cfg d c objs).deleteCalls
      = (objs.filter (deleteAttempt cfg)).length := by
  induction objs with
  | nil => intro c; rfl
  | cons obj rest ih =>
      intro c
      simp only [runSeq]
      rw [ih, processObject_deleteCalls, List.filter_cons]
      by_cases h : deleteAttempt cfg obj <;> simp [h] <;> omega

theorem candidate_mem_processObject (cfg : Cfg) (d : String → Option String)
    (c : Counters) (obj : ObjectInfo)
    (hsz : cfg.minSize ≤ obj.size) (hage : obj.lastModified ≤ cfg.threshold) :
    LogEntry.candidate obj.key obj.size obj.lastModified
      ∈ (processObject cfg d c obj).logs := by
  unfold processObject
  rw [if_neg (not_lt.2 hsz), if_neg (not_lt.2 hage)]
  split_ifs <;> try simp
  rcases hk : d obj.key with _ | m <;> simp

theorem candidate_mem_runSeq (cfg : Cfg) (d : String → Option String)
    (objs : List ObjectInfo) :
    ∀ c, ∀ obj ∈ objs,
      cfg.minSize ≤ obj.size → obj.lastModified ≤ cfg.threshold →
      LogEntry.candidate obj.key obj.size obj.lastModified
        ∈ (runSeq cfg d c objs).logs := by
  induction objs with
  | nil => intro c obj h; simp at h
  | cons o rest ih =>
      intro c obj hmem hsz hage
      simp only [runSeq, List.mem_append]
      rcases List.mem_cons.1 hmem with h | h
      · subst h
        exact Or.inl (candidate_mem_processObject cfg d c obj hsz hage)
      · exact Or.inr (ih _ obj h hsz hage)

/-- C2: the worker's filter treats an object as eligible (emitting the
candidate record, line 161) iff `size >= minSizeBytes` and
`lastModified <= thresholdTime`; too-small objects are never selected
regardless of age, and too-recent objects never regardless of size. -/
theorem filter_selects_iff (cfg : Cfg) (d : String → Option String)
    (c : Counters) (obj : ObjectInfo) :
    (LogEntry.candidate obj.key obj.size obj.lastModified
        ∈ (processObject cfg d c obj).logs)
      ↔ (cfg.minSize ≤ obj.size ∧ obj.lastModified ≤ cfg.threshold) := by
  unfold processObject
  split_ifs with h1 h2 h3
  · simp; omega
  · simp; omega
  · simp; omega
  · rcases hk : d obj.key with _ | m <;> simp <;> omega

/-- C3: with `dryRun = true` the whole run issues no `RemoveObject`
call, still emits the candidate record for every eligible object,
counts every dequeued object as processed exactly once, and leaves
`deletedFiles` and `deletedSize` at 0. -/
theorem dryRun_frame (cfg : Cfg) (d : String → Option String)
    (t p : Int) (objs : List ObjectInfo) (hdry : cfg.dryRun = true) :
    (runSeq cfg d ⟨t, p, 0, 0⟩ objs).deleteCalls = 0 ∧
    (runSeq cfg d ⟨t, p, 0, 0⟩ objs).counters.processedFiles
      = p + (objs.length : Int) ∧
    (runSeq cfg d ⟨t, p, 0, 0⟩ objs).counters.deletedFiles = 0 ∧
    (runSeq cfg d ⟨t, p, 0, 0⟩ objs).counters.deletedSize = 0 ∧
    ∀ obj ∈ objs, cfg.minSize ≤ obj.size → obj.lastModified ≤ cfg.threshold →
      LogEntry.candidate obj.key obj.size obj.lastModified
        ∈ (runSeq cfg d ⟨t, p, 0, 0⟩ objs).logs := by
  have hattempt : ∀ obj, deleteAttempt cfg obj = false := by
    intro obj
    simp [deleteAttempt, hdry]
  have hhappens : ∀ obj, deleteHappens cfg d obj = false := by
    intro obj
    simp [deleteHappens, hattempt]
  have hnilA : List.filter (deleteAttempt cfg) objs = [] := by
    induction objs with
    | nil => rfl
    | cons o rest ih => simp [List.filter_cons, hattempt, ih]
  have hnilH : List.filter (deleteHappens cfg d) objs = [] := by
    induction objs with
    | nil => rfl
    | cons o rest ih => simp [List.filter_cons, hhappens, ih]
  refine ⟨?_, ?_, ?_, ?_, fun obj hm hsz hage =>
    candidate_mem_runSeq cfg d objs _ obj hm hsz hage⟩
  · rw [runSeq_deleteCalls, hnilA]
    rfl
  · rw [runSeq_processedFiles]
  · rw [runSeq_deletedFiles, hnilH]
    rfl
  · rw [runSeq_deletedSize, hnilH]
    rfl

theorem dryRun_frame_witness :
    ({ workers := 2, minSize := 5, threshold := 100, dryRun := true } :
        Cfg).dryRun = true ∧
    ((runSeq { workers := 2, minSize := 5, threshold := 100, dryRun := true }
        (fun _ => none) ⟨0, 0, 0, 0⟩
        [⟨"a", 10, 50⟩, ⟨"b", 1, 50⟩]).deleteCalls = 0 ∧
      (runSeq { workers := 2, minSize := 5, threshold := 100, dryRun := true }
        (fun _ => none) ⟨0, 0, 0, 0⟩
        [⟨"a", 10, 50⟩, ⟨"b", 1, 50⟩]).counters.processedFiles
        = 0 + (([⟨"a", 10, 50⟩, ⟨"b", 1, 50⟩] : List ObjectInfo).length : Int) ∧
      (runSeq { workers := 2, minSize := 5, threshold := 100, dryRun := true }
        (fun _ => none) ⟨0, 0, 0, 0⟩
        [⟨"a", 10, 50⟩, ⟨"b", 1, 50⟩]).counters.deletedFiles = 0 ∧
      (runSeq { workers := 2, minSize := 5, threshold := 100, dryRun := true }
        (fun _ => none) ⟨0, 0, 0, 0⟩
        [⟨"a", 10, 50⟩, ⟨"b", 1, 50⟩]).counters.deletedSize = 0 ∧
      ∀ obj ∈ ([⟨"a", 10, 50⟩, ⟨"b", 1, 50⟩] : List ObjectInfo),
        (5 : Int) ≤ obj.size → obj.lastModified ≤ (100 : Int) →
        LogEntry.candidate obj.key obj.size obj.lastModified
          ∈ (runSeq { workers := 2, minSize := 5, threshold := 100, dryRun := true }
              (fun _ => none) ⟨0, 0, 0, 0⟩
              [⟨"a", 10, 50⟩, ⟨"b", 1, 50⟩]).logs) :=
  ⟨rfl, dryRun_frame { workers := 2, minSize := 5, threshold := 100, dryRun := true }
    (fun _ => none) 0 0 [⟨"a", 10, 50⟩, ⟨"b", 1, 50⟩] rfl⟩

/-- C4: when the deletion call for an eligible object fails, the worker
logs the failure with key and reason, still counts the object as
processed exactly once, leaves `deletedFiles`/`deletedSize` untouched,
issues exactly one deletion call (no retry), and goes on to process
the remaining objects. -/
theorem deletion_failure_handling (cfg : Cfg) (d : String → Option String)
    (c : Counters) (obj : ObjectInfo) (msg : String) (rest : List ObjectInfo)
    (hsz : cfg.minSize ≤ obj.size) (hage : obj.lastModified ≤ cfg.threshold)
    (hdry : cfg.dryRun = false) (hfail : d obj.key = some msg) :
    (processObject cfg d c obj).logs =
      [LogEntry.candidate obj.key obj.size obj.lastModified,
       LogEntry.deleteFailure obj.key msg] ∧
    (processObject cfg d c obj).counters.processedFiles
      = c.processedFiles + 1 ∧
    (processObject cfg d c obj).counters.deletedFiles = c.deletedFiles ∧
    (processObject cfg d c obj).counters.deletedSize = c.deletedSize ∧
    (processObject cfg d c obj).deleteCalls = 1 ∧
    (runSeq cfg d c (obj :: rest)).counters.processedFiles
      = c.processedFiles + 1 + (rest.length : Int) := by
  have hpo : processObject cfg d c obj =
      ⟨{ c with processedFiles := c.processedFiles + 1 },
        [LogEntry.candidate obj.key obj.size obj.lastModified,
         LogEntry.deleteFailure obj.key msg], 1⟩ := by
    unfold processObject
    rw [if_neg (not_lt.2 hsz), if_neg (not_lt.2 hage), hdry, hfail]
    rfl
  refine ⟨by rw [hpo], by rw [hpo], by rw [hpo], by rw [hpo], by rw [hpo], ?_⟩
  show (runSeq cfg d c (obj :: rest)).counters.processedFiles
    = c.processedFiles + 1 + (rest.length : Int)
  simp only [runSeq]
  rw [runSeq_processedFiles, hpo]

theorem deletion_failure_handling_witness :
    (3 : Int) ≤ (10 : Int) ∧ (0 : Int) ≤ (100 : Int) ∧
    ({ workers := 1, minSize := 3, threshold := 100, dryRun := false } :
        Cfg).dryRun = false ∧
    ((fun k => if k = "a" then some "boom" else none) "a") = some "boom" ∧
    ((processObject { workers := 1, minSize := 3, threshold := 100, dryRun := false }
        (fun k => if k = "a" then some "boom" else none)
        ⟨7, 1, 2, 3⟩ ⟨"a", 10, 0⟩).logs =
      [LogEntry.candidate "a" 10 0, LogEntry.deleteFailure "a" "boom"] ∧
      (processObject { workers := 1, minSize := 3, threshold := 100, dryRun := false }
        (fun k => if k = "a" then some "boom" else none)
        ⟨7, 1, 2, 3⟩ ⟨"a", 10, 0⟩).counters.processedFiles = 1 + 1 ∧
      (processObject { workers := 1, minSize := 3, threshold := 100, dryRun := false }
        (fun k => if k = "a" then some "boom" else none)
        ⟨7, 1, 2, 3⟩ ⟨"a", 10, 0⟩).counters.deletedFiles = 2 ∧
      (processObject { workers := 1, minSize := 3, threshold := 100, dryRun := false }
        (fun k => if k = "a" then some "boom" else none)
        ⟨7, 1, 2, 3⟩ ⟨"a", 10, 0⟩).counters.deletedSize = 3 ∧
      (processObject { workers := 1, minSize := 3, threshold := 100, dryRun := false }
        (fun k => if k = "a" then some "boom" else none)
        ⟨7, 1, 2, 3⟩ ⟨"a", 10, 0⟩).deleteCalls = 1 ∧
      (runSeq { workers := 1, minSize := 3, threshold := 100, dryRun := false }
        (fun k => if k = "a" then some "boom" else none)
        ⟨7, 1, 2, 3⟩ [⟨"a", 10, 0⟩, ⟨"b", 10, 0⟩]).counters.processedFiles
        = 1 + 1 + (([⟨"b", 10, 0⟩] : List ObjectInfo).length : Int)) := by
  refine ⟨by decide, by decide, rfl, by decide, ?_⟩
  exact deletion_failure_handling
    { workers := 1, minSize := 3, threshold := 100, dryRun := false }
    (fun k => if k = "a" then some "boom" else none)
    ⟨7, 1, 2, 3⟩ ⟨"a", 10, 0⟩ "boom" [⟨"b", 10, 0⟩]
    (by decide) (by decide) rfl (by decide)

/-- C8: `deletedFiles` and `deletedSize` are updated only together, on
successful deletions: after any number of worker steps, `deletedSize`
is exactly the sum of the sizes of the objects counted in
`deletedFiles`, and both counters are non-decreasing step to step. -/
theorem deleted_counters_coupled (cfg : Cfg) (d : String → Option String)
    (t p : Int) (objs : List ObjectInfo) (n : Nat)
    (hpos : ∀ obj ∈ objs, 0 ≤ obj.size) :
    (runSeq cfg d ⟨t, p, 0, 0⟩ objs).counters.deletedSize
      = ((objs.filter (deleteHappens cfg d)).map ObjectInfo.size).sum ∧
    (runSeq cfg d ⟨t, p, 0, 0⟩ objs).counters.deletedFiles
      = ((objs.filter (deleteHappens cfg d)).length : Int) ∧
    (runSeq cfg d ⟨t, p, 0, 0⟩ (objs.take n)).counters.deletedFiles
      ≤ (runSeq cfg d ⟨t, p, 0, 0⟩ (objs.take (n + 1))).counters.deletedFiles ∧
    (runSeq cfg d ⟨t, p, 0, 0⟩ (objs.take n)).counters.deletedSize
      ≤ (runSeq cfg d ⟨t, p, 0, 0⟩ (objs.take (n + 1))).counters.deletedSize := by
  refine ⟨by rw [runSeq_deletedSize]; exact zero_add _,
    by rw [runSeq_deletedFiles]; exact zero_add _, ?_, ?_⟩
  · rw [runSeq_deletedFiles, runSeq_deletedFiles, List.take_succ]
    rcases hnth : objs[n]? with _ | o
    · simp
    · rw [List.filter_append, List.length_append]
      push_cast
      omega
  · rw [runSeq_deletedSize, runSeq_deletedSize, List.take_succ]
    rcases hnth : objs[n]? with _ | o
    · simp
    · rw [List.filter_append, List.map_append, List.sum_append]
      have hsum :
          0 ≤ ((List.filter (deleteHappens cfg d) (some o).toList).map
            ObjectInfo.size).sum := by
        have homem : o ∈ objs := List.getElem?_mem hnth
        rcases ho : deleteHappens cfg d o with _ | _
        · simp [ho]
        · simpa [ho] using hpos o homem
      omega

theorem deleted_counters_coupled_witness :
    (∀ obj ∈ ([⟨"a", 10, 0⟩, ⟨"b", 4, 0⟩] : List ObjectInfo), 0 ≤ obj.size) ∧
    ((runSeq { workers := 1, minSize := 5, threshold := 50, dryRun := false }
        (fun _ => none) ⟨0, 0, 0, 0⟩
        [⟨"a", 10, 0⟩, ⟨"b", 4, 0⟩]).counters.deletedSize
      = ((([⟨"a", 10, 0⟩, ⟨"b", 4, 0⟩] : List ObjectInfo).filter
          (deleteHappens { workers := 1, minSize := 5, threshold := 50, dryRun := false }
            (fun _ => none))).map ObjectInfo.size).sum ∧
      (runSeq { workers := 1, minSize := 5, threshold := 50, dryRun := false }
        (fun _ => none) ⟨0, 0, 0, 0⟩
        [⟨"a", 10, 0⟩, ⟨"b", 4, 0⟩]).counters.deletedFiles
      = ((([⟨"a", 10, 0⟩, ⟨"b", 4, 0⟩] : List ObjectInfo).filter
          (deleteHappens { workers := 1, minSize := 5, threshold := 50, dryRun := false }
            (fun _ => none))).length : Int) ∧
      (runSeq { workers := 1, minSize := 5, threshold := 50, dryRun := false }
        (fun _ => none) ⟨0, 0, 0, 0⟩
        (([⟨"a", 10, 0⟩, ⟨"b", 4, 0⟩] : List ObjectInfo).take 1)).counters.deletedFiles
      ≤ (runSeq { workers := 1, minSize := 5, threshold := 50, dryRun := false }
        (fun _ => none) ⟨0, 0, 0, 0⟩
        (([⟨"a", 10, 0⟩, ⟨"b", 4, 0⟩] : List ObjectInfo).take 2)).counters.deletedFiles ∧
      (runSeq { workers := 1, minSize := 5, threshold := 50, dryRun := false }
        (fun _ => none) ⟨0, 0, 0, 0⟩
        (([⟨"a", 10, 0⟩, ⟨"b", 4, 0⟩] : List ObjectInfo).take 1)).counters.deletedSize
      ≤ (runSeq { workers := 1, minSize := 5, threshold := 50, dryRun := false }
        (fun _ => none) ⟨0, 0, 0, 0⟩
        (([⟨"a", 10, 0⟩, ⟨"b", 4, 0⟩] : List ObjectInfo).take 2)).counters.deletedSize) :=
  ⟨by decide,
    deleted_counters_coupled { workers := 1, minSize := 5, threshold := 50, dryRun := false }
      (fun _ => none) 0 0 [⟨"a", 10, 0⟩, ⟨"b", 4, 0⟩] 1 (by decide)⟩

theorem Counters.eq_of_fields {a b : Counters}
    (h1 : a.totalFiles = b.totalFiles)
    (h2 : a.processedFiles = b.processedFiles)
    (h3 : a.deletedFiles = b.deletedFiles)
    (h4 : a.deletedSize = b.deletedSize) : a = b := by
  cases a; cases b; simp_all

theorem runSeq_counters_append (cfg : Cfg) (d : String → Option String)
    (a b : List ObjectInfo) :
    ∀ c, (runSeq cfg d c (a ++ b)).counters
      = (runSeq cfg d (runSeq cfg d c a).counters b).counters := by
  induction a with
  | nil => intro c; rfl
  | cons o rest ih =>
      intro c
      simp only [List.cons_append, runSeq]
      exact ih _

/-- Counter-only view of a run: processing the same multiset of objects
in any order leaves the shared counters equal, because every update is
an atomic add of a per-object delta and integer addition commutes. -/
theorem runSeq_counters_perm (cfg : Cfg) (d : String → Option String)
    {l1 l2 : List ObjectInfo} (h : l1.Perm l2) (c : Counters) :
    (runSeq cfg d c l1).counters = (runSeq cfg d c l2).counters := by
  refine Counters.eq_of_fields ?_ ?_ ?_ ?_
  · rw [runSeq_totalFiles, runSeq_totalFiles]
  · rw [runSeq_processedFiles, runSeq_processedFiles, h.length_eq]
  · rw [runSeq_deletedFiles, runSeq_deletedFiles,
      (h.filter (deleteHappens cfg d)).length_eq]
  · rw [runSeq_deletedSize, runSeq_deletedSize,
      ((h.filter (deleteHappens cfg d)).map ObjectInfo.size).sum_eq]

/-- Final value of the shared counters produced by a pool of workers,
worker `i` having consumed the sublist `parts[i]` of the work queue.
All counter updates are atomic `AddInt64` calls, so updates by
different workers commute and the final value equals that of any
serialisation of the per-worker runs; `poolRun` is one such
serialisation. -/
def poolRun (cfg : Cfg) (d : String → Option String)
    (parts : List (List ObjectInfo)) : Counters :=
  parts.foldl (fun c part => (runSeq cfg d c part).counters) Counters.zero

theorem foldl_runSeq_join (cfg : Cfg) (d : String → Option String)
    (parts : List (List ObjectInfo)) :
    ∀ c, parts.foldl (fun c part => (runSeq cfg d c part).counters) c
      = (runSeq cfg d c parts.join).counters := by
  induction parts with
  | nil => intro c; rfl
  | cons part rest ih =>
      intro c
      simp only [List.foldl_cons, List.join_cons]
      rw [ih, runSeq_counters_append]

theorem processObject_workers_irrel (w w' : Nat) (ms th : Int) (dr : Bool)
    (d : String → Option String) (c : Counters) (obj : ObjectInfo) :
    processObject ⟨w, ms, th, dr⟩ d c obj
      = processObject ⟨w', ms, th, dr⟩ d c obj := rfl

theorem runSeq_workers_irrel (w w' : Nat) (ms th : Int) (dr : Bool)
    (d : String → Option String) (objs : List ObjectInfo) :
    ∀ c, runSeq ⟨w, ms, th, dr⟩ d c objs
      = runSeq ⟨w', ms, th, dr⟩ d c objs := by
  induction objs with
  | nil => intro c; rfl
  | cons o rest ih =>
      intro c
      simp only [runSeq]
      rw [processObject_workers_irrel w w', ih]

/-- C7: the final counters are a deterministic function of the input
object set — a pool of 1 worker (`workers := 1`) and a pool of 8
workers (`workers := 8`) under the same policy, consuming the same
multiset of queue items, produce identical final values of
`processedFiles`, `deletedFiles` and `deletedSize`, whatever the split
of the queue among the workers. -/
theorem workerCount_invariance (ms th : Int) (dr : Bool)
    (d : String → Option String) (objs : List ObjectInfo)
    (parts1 parts8 : List (List ObjectInfo))
    (h1 : parts1.length = 1) (h8 : parts8.length = 8)
    (hj1 : parts1.join.Perm objs) (hj8 : parts8.join.Perm objs) :
    poolRun ⟨1, ms, th, dr⟩ d parts1 = poolRun ⟨8, ms, th, dr⟩ d parts8 := by
  unfold poolRun
  rw [foldl_runSeq_join, foldl_runSeq_join]
  calc (runSeq ⟨1, ms, th, dr⟩ d Counters.zero parts1.join).counters
      = (runSeq ⟨1, ms, th, dr⟩ d Counters.zero parts8.join).counters :=
        runSeq_counters_perm _ d (hj1.trans hj8.symm) Counters.zero
    _ = (runSeq ⟨8, ms, th, dr⟩ d Counters.zero parts8.join).counters := by
        rw [runSeq_workers_irrel 1 8]

theorem workerCount_invariance_witness :
    ([[(⟨"a", 10, 0⟩ : ObjectInfo), ⟨"b", 4, 0⟩]] :
        List (List ObjectInfo)).length = 1 ∧
    ([[(⟨"b", 4, 0⟩ : ObjectInfo)], [⟨"a", 10, 0⟩], [], [], [], [], [], []] :
        List (List ObjectInfo)).length = 8 ∧
    ([[(⟨"a", 10, 0⟩ : ObjectInfo), ⟨"b", 4, 0⟩]] :
        List (List ObjectInfo)).join.Perm [⟨"a", 10, 0⟩, ⟨"b", 4, 0⟩] ∧
    ([[(⟨"b", 4, 0⟩ : ObjectInfo)], [⟨"a", 10, 0⟩], [], [], [], [], [], []] :
        List (List ObjectInfo)).join.Perm [⟨"a", 10, 0⟩, ⟨"b", 4, 0⟩] ∧
    poolRun ⟨1, 5, 50, false⟩ (fun _ => none)
        [[⟨"a", 10, 0⟩, ⟨"b", 4, 0⟩]]
      = poolRun ⟨8, 5, 50, false⟩ (fun _ => none)
        [[⟨"b", 4, 0⟩], [⟨"a", 10, 0⟩], [], [], [], [], [], []] := by
  have hj1 : ([[(⟨"a", 10, 0⟩ : ObjectInfo), ⟨"b", 4, 0⟩]] :
      List (List ObjectInfo)).join.Perm [⟨"a", 10, 0⟩, ⟨"b", 4, 0⟩] := by
    simp
  have hj8 : ([[(⟨"b", 4, 0⟩ : ObjectInfo)], [⟨"a", 10, 0⟩], [], [], [], [], [], []] :
      List (List ObjectInfo)).join.Perm [⟨"a", 10, 0⟩, ⟨"b", 4, 0⟩] := by
    simpa using List.Perm.swap (⟨"a", 10, 0⟩ : ObjectInfo) ⟨"b", 4, 0⟩ []
  exact ⟨rfl, rfl, hj1, hj8,
    workerCount_invariance 5 50 false (fun _ => none)
      [⟨"a", 10, 0⟩, ⟨"b", 4, 0⟩]
      [[⟨"a", 10, 0⟩, ⟨"b", 4, 0⟩]]
      [[⟨"b", 4, 0⟩], [⟨"a", 10, 0⟩], [], [], [], [], [], []]
      rfl rfl hj1 hj8⟩

/-- C6: on each tick the progress reporter emits a progress line iff
`totalFiles > 0` (skipping silently while it is 0 but continuing to
tick), and the reporting loop breaks iff `processedFiles >= totalFiles`
and `totalFiles > 0`. -/
theorem reporterTick_spec (p t d sz : Int) :
    ((reporterTick p t d sz).1.isSome = true ↔ 0 < t) ∧
    ((reporterTick p t d sz).2 = true ↔ (t ≤ p ∧ 0 < t)) := by
  unfold reporterTick
  constructor
  · split_ifs with h <;> simp [h]
  · simp

/-! ## The concurrent pipeline as a transition system

`main` runs four kinds of tasks concurrently: the enumerator goroutine
(lines 186-212), `cfg.Cleanup.Workers` worker goroutines
(lines 145-178), the progress reporter (lines 123-142), and the main
goroutine blocked on `<-doneChan` (line 215) before printing the final
summary (line 216).  `Step` below is the interleaving small-step
semantics: each constructor is one atomic action of one task.  A whole
worker iteration is taken as one step; this is sound for the claims
settled on this relation — the counter updates it compounds are atomic
adds whose combined effect is interleaving-independent
(`runSeq_counters_perm`), and the remaining claims only read
enumerator-owned or reporter-owned state.

Go channel semantics modelled: a send on `fileChan` (capacity
`Workers*2`, line 119) completes iff the buffer holds fewer than
`Workers*2` items; a worker receive completes iff the buffer is
non-empty (a blocked receiver coexisting with a non-empty buffer is
impossible, so buffered rendezvous needs no extra rule, and with
`Workers = 0` the capacity is 0 and no receiver exists, so no send ever
completes).  `doneChan` is unbuffered with `main` always blocked
receiving on it, so the enumerator's `doneChan <- struct{}{}`
(line 211) always completes. -/

/-- The running total the enumerator's pass 1 computes: the number of
error-free entries of a listing stream (erroneous entries are logged
and skipped, lines 190-194). -/
def countValid (entries : List ListEntry) : Int :=
  ((entries.filter fun e => e.err.isNone).length : Int)

/-- Number of erroneous entries of a listing stream. -/
def countErr (entries : List ListEntry) : Nat :=
  (entries.filter fun e => e.err.isSome).length

/-- The objects of the error-free entries of a listing stream, in
stream order: exactly what pass 2 enqueues (lines 203-209). -/
def validObjects (entries : List ListEntry) : List ObjectInfo :=
  (entries.filter fun e => e.err.isNone).map ListEntry.info

/-- Number of per-item listing-error lines in a log. -/
def logListErrors (log : List LogEntry) : Nat :=
  (log.filter LogEntry.isListError).length

/-- Number of progress lines in a log. -/
def logProgressCount (log : List LogEntry) : Nat :=
  (log.filter LogEntry.isProgress).length

/-- Control position of the enumerator goroutine (lines 186-212):
counting pass over the first listing stream, feeding pass over the
second, the `doneChan` send after `close(fileChan)`, and exit. -/
inductive EnumPhase where
  | pass1 (remaining : List ListEntry) (count : Int)
  | pass2 (remaining : List ListEntry)
  | doneSend
  | finished
deriving Repr, DecidableEq

/-- The run's fixed environment: the cleanup configuration and the
external storage capability — the two listing streams (one per
`ListObjects` call; they may differ if the bucket mutates between the
passes) and the deletion oracle. -/
structure Env where
  cfg : Cfg
  deleteRes : String → Option String
  entries1 : List ListEntry
  entries2 : List ListEntry

/-- Global state of the pipeline: the enumerator's position, the
`fileChan` buffer and closed flag, the `doneChan` handshake, whether
the final summary has been printed, whether the reporter loop has
exited, the shared counters, and the log.  `closeCount` and `enqueued`
are ghost observers: how many times `close(fileChan)` has run and
every object ever sent into `fileChan`, in order. -/
structure SysState where
  phase : EnumPhase
  queue : List ObjectInfo
  closed : Bool
  closeCount : Nat
  done : Bool
  summaried : Bool
  reporterDone : Bool
  counters : Counters
  enqueued : List ObjectInfo
  log : List LogEntry
deriving Repr, DecidableEq

/-- The state right after the orchestrator has started all goroutines
(line 123): counters zero, empty open queue, enumerator at the start
of pass 1. -/
def initState (env : Env) : SysState where
  phase := .pass1 env.entries1 0
  queue := []
  closed := false
  closeCount := 0
  done := false
  summaried := false
  reporterDone := false
  counters := Counters.zero
  enqueued := []
  log := []

/-- One atomic action of one of the concurrent tasks. -/
inductive Step (env : Env) : SysState → SysState → Prop where
  /-- Pass 1, erroneous entry (lines 190-193): log it, skip it. -/
  | enum1_err (s : SysState) (e : ListEntry) (rest : List ListEntry)
      (cnt : Int) (msg : String)
      (hph : s.phase = .pass1 (e :: rest) cnt) (herr : e.err = some msg) :
      Step env s { s with phase := .pass1 rest cnt,
                          log := s.log ++ [.listError msg] }
  /-- Pass 1, valid entry (line 194): count it. -/
  | enum1_ok (s : SysState) (e : ListEntry) (rest : List ListEntry)
      (cnt : Int)
      (hph : s.phase = .pass1 (e :: rest) cnt) (hok : e.err = none) :
      Step env s { s with phase := .pass1 rest (cnt + 1) }
  /-- End of pass 1 (lines 196-202): store the count into `totalFiles`,
  log it, re-issue the listing call and start pass 2. -/
  | enum1_done (s : SysState) (cnt : Int)
      (hph : s.phase = .pass1 [] cnt) :
      Step env s { s with phase := .pass2 env.entries2,
                          counters := { s.counters with totalFiles := cnt },
                          log := s.log ++ [.totalCount cnt] }
  /-- Pass 2, erroneous entry (lines 204-207): log it, skip it. -/
  | enum2_err (s : SysState) (e : ListEntry) (rest : List ListEntry)
      (msg : String)
      (hph : s.phase = .pass2 (e :: rest)) (herr : e.err = some msg) :
      Step env s { s with phase := .pass2 rest,
                          log := s.log ++ [.listError msg] }
  /-- Pass 2, valid entry (line 208): the blocking send into `fileChan`
  completes when the buffer has room. -/
  | enum2_send (s : SysState) (e : ListEntry) (rest : List ListEntry)
      (hph : s.phase = .pass2 (e :: rest)) (hok : e.err = none)
      (hroom : s.queue.length < env.cfg.workers * 2) :
      Step env s { s with phase := .pass2 rest,
                          queue := s.queue ++ [e.info],
                          enqueued := s.enqueued ++ [e.info] }
  /-- End of pass 2 (line 210): `close(fileChan)`. -/
  | enum_close (s : SysState)
      (hph : s.phase = .pass2 []) :
      Step env s { s with phase := .doneSend, closed := true,
                          closeCount := s.closeCount + 1 }
  /-- `doneChan <- struct{}{}` (line 211) rendezvouses with the main
  goroutine blocked at line 215. -/
  | enum_doneSignal (s : SysState)
      (hph : s.phase = .doneSend) :
      Step env s { s with phase := .finished, done := true }
  /-- One worker iteration (lines 147-176): receive the head of the
  non-empty `fileChan` buffer and handle the object. Requires a worker
  to exist (line 145 starts `Workers` of them). -/
  | worker_take (s : SysState) (obj : ObjectInfo) (q : List ObjectInfo)
      (hw : 0 < env.cfg.workers) (hq : s.queue = obj :: q) :
      Step env s { s with
                   queue := q,
                   counters :=
                     (processObject env.cfg env.deleteRes s.counters obj).counters,
                   log := s.log ++
                     (processObject env.cfg env.deleteRes s.counters obj).logs }
  /-- One reporter tick (lines 125-140), while its loop has not
  exited. -/
  | reporter_tick (s : SysState)
      (hrep : s.reporterDone = false) :
      Step env s { s with
                   log := s.log ++ (reporterTick s.counters.processedFiles
                     s.counters.totalFiles s.counters.deletedFiles
                     s.counters.deletedSize).1.toList,
                   reporterDone := (reporterTick s.counters.processedFiles
                     s.counters.totalFiles s.counters.deletedFiles
                     s.counters.deletedSize).2 }
  /-- The main goroutine, unblocked by `doneChan`, prints the final
  summary from the counters as they are at that moment (lines 216-220). -/
  | main_summary (s : SysState)
      (hdone : s.done = true) (hsum : s.summaried = false) :
      Step env s { s with
                   summaried := true,
                   log := s.log ++ [.summaryLine s.counters.totalFiles
                     s.counters.processedFiles s.counters.deletedFiles
                     s.counters.deletedSize] }

/-- States the pipeline can reach from the start of the run. -/
def Reachable (env : Env) (s : SysState) : Prop :=
  Relation.ReflTransGen (Step env) (initState env) s

theorem countValid_append (a b : List ListEntry) :
    countValid (a ++ b) = countValid a + countValid b := by
  simp [countValid, List.filter_append]

theorem countErr_append (a b : List ListEntry) :
    countErr (a ++ b) = countErr a + countErr b := by
  simp [countErr, List.filter_append]

theorem validObjects_append (a b : List ListEntry) :
    validObjects (a ++ b) = validObjects a ++ validObjects b := by
  simp [validObjects, List.filter_append]

theorem logListErrors_append (a b : List LogEntry) :
    logListErrors (a ++ b) = logListErrors a + logListErrors b := by
  simp [logListErrors, List.filter_append]

theorem logProgressCount_append (a b : List LogEntry) :
    logProgressCount (a ++ b) = logProgressCount a + logProgressCount b := by
  simp [logProgressCount, List.filter_append]

theorem countValid_nonneg (l : List ListEntry) : 0 ≤ countValid l := by
  simp [countValid]

theorem countValid_singleton_err {e : ListEntry} {msg : String}
    (h : e.err = some msg) : countValid [e] = 0 := by
  simp [countValid, List.filter, h]

theorem countValid_singleton_ok {e : ListEntry} (h : e.err = none) :
    countValid [e] = 1 := by
  simp [countValid, List.filter, h]

theorem countErr_singleton_err {e : ListEntry} {msg : String}
    (h : e.err = some msg) : countErr [e] = 1 := by
  simp [countErr, List.filter, h]

theorem countErr_singleton_ok {e : ListEntry} (h : e.err = none) :
    countErr [e] = 0 := by
  simp [countErr, List.filter, h]

theorem validObjects_singleton_err {e : ListEntry} {msg : String}
    (h : e.err = some msg) : validObjects [e] = [] := by
  simp [validObjects, List.filter, h]

theorem validObjects_singleton_ok {e : ListEntry} (h : e.err = none) :
    validObjects [e] = [e.info] := by
  simp [validObjects, List.filter, h]

theorem processObject_logListErrors (cfg : Cfg) (d : String → Option String)
    (c : Counters) (obj : ObjectInfo) :
    logListErrors (processObject cfg d c obj).logs = 0 := by
  by_cases h1 : obj.size < cfg.minSize
  · simp [processObject, logListErrors, h1]
  by_cases h2 : cfg.threshold < obj.lastModified
  · simp [processObject, logListErrors, h1, h2]
  by_cases h3 : cfg.dryRun
  · simp [processObject, logListErrors, LogEntry.isListError, h1, h2, h3]
  · rcases hk : d obj.key with _ | m <;>
      simp [processObject, logListErrors, LogEntry.isListError, h1, h2, h3, hk]

theorem processObject_logProgressCount (cfg : Cfg) (d : String → Option String)
    (c : Counters) (obj : ObjectInfo) :
    logProgressCount (processObject cfg d c obj).logs = 0 := by
  by_cases h1 : obj.size < cfg.minSize
  · simp [processObject, logProgressCount, h1]
  by_cases h2 : cfg.threshold < obj.lastModified
  · simp [processObject, logProgressCount, h1, h2]
  by_cases h3 : cfg.dryRun
  · simp [processObject, logProgressCount, LogEntry.isProgress, h1, h2, h3]
  · rcases hk : d obj.key with _ | m <;>
      simp [processObject, logProgressCount, LogEntry.isProgress, h1, h2, h3, hk]

theorem reporterTick_logListErrors (p t dl sz : Int) :
    logListErrors (reporterTick p t dl sz).1.toList = 0 := by
  unfold reporterTick
  split_ifs <;> simp [logListErrors, LogEntry.isListError]

theorem reporterTick_fst_zero (p dl sz : Int) :
    (reporterTick p 0 dl sz).1 = none := by
  simp [reporterTick]

theorem reporterTick_snd_zero (p dl sz : Int) :
    (reporterTick p 0 dl sz).2 = false := by
  simp [reporterTick]

/-- Per-phase facts about the enumerator-owned and orchestrator-owned
state, preserved by every step of every task. -/
def Inv (env : Env) (s : SysState) : Prop :=
  (∀ rem cnt, s.phase = .pass1 rem cnt →
    (∃ consumed, env.entries1 = consumed ++ rem ∧ cnt = countValid consumed ∧
      logListErrors s.log = countErr consumed) ∧
    s.counters.totalFiles = 0 ∧ s.enqueued = [] ∧ s.queue = [] ∧
    s.closed = false ∧ s.closeCount = 0 ∧ s.done = false ∧
    s.summaried = false) ∧
  (∀ rem, s.phase = .pass2 rem →
    (∃ consumed, env.entries2 = consumed ++ rem ∧
      s.enqueued = validObjects consumed ∧
      logListErrors s.log = countErr env.entries1 + countErr consumed) ∧
    s.counters.totalFiles = countValid env.entries1 ∧
    s.closed = false ∧ s.closeCount = 0 ∧ s.done = false ∧
    s.summaried = false) ∧
  (s.phase = .doneSend →
    s.enqueued = validObjects env.entries2 ∧
    logListErrors s.log = countErr env.entries1 + countErr env.entries2 ∧
    s.counters.totalFiles = countValid env.entries1 ∧
    s.closed = true ∧ s.closeCount = 1 ∧ s.done = false ∧
    s.summaried = false) ∧
  (s.phase = .finished →
    s.enqueued = validObjects env.entries2 ∧
    logListErrors s.log = countErr env.entries1 + countErr env.entries2 ∧
    s.counters.totalFiles = countValid env.entries1 ∧
    s.closed = true ∧ s.closeCount = 1 ∧ s.done = true)

theorem step_inv (env : Env) {s s' : SysState} (hinv : Inv env s)
    (hstep : Step env s s') : Inv env s' := by
  obtain ⟨hp1, hp2, hp3, hp4⟩ := hinv
  cases hstep with
  | enum1_err e rest cnt msg hph herr =>
      obtain ⟨⟨consumed, hsplit, hcnt, hlog⟩, htot, henq, hq, hcl, hcc, hdn, hsm⟩ :=
        hp1 _ _ hph
      refine ⟨fun rem' cnt' h' => ?_, fun rem' h' => ?_, fun h' => ?_,
        fun h' => ?_⟩ <;> simp only [] at h' <;> try simp at h'
      obtain ⟨hrem, hcnt'⟩ := h'
      subst hrem hcnt'
      refine ⟨⟨consumed ++ [e], ?_, ?_, ?_⟩, htot, henq, hq, hcl, hcc, hdn, hsm⟩
      · simp [hsplit]
      · rw [countValid_append, countValid_singleton_err herr, hcnt]
        ring
      · rw [logListErrors_append, countErr_append, countErr_singleton_err herr,
          hlog]
        simp [logListErrors, LogEntry.isListError]
  | enum1_ok e rest cnt hph hok =>
      obtain ⟨⟨consumed, hsplit, hcnt, hlog⟩, htot, henq, hq, hcl, hcc, hdn, hsm⟩ :=
        hp1 _ _ hph
      refine ⟨fun rem' cnt' h' => ?_, fun rem' h' => ?_, fun h' => ?_,
        fun h' => ?_⟩ <;> simp only [] at h' <;> try simp at h'
      obtain ⟨hrem, hcnt'⟩ := h'
      subst hrem hcnt'
      refine ⟨⟨consumed ++ [e], ?_, ?_, ?_⟩, htot, henq, hq, hcl, hcc, hdn, hsm⟩
      · simp [hsplit]
      · rw [countValid_append, countValid_singleton_ok hok, hcnt]
      · rw [countErr_append, countErr_singleton_ok hok, hlog]
        omega
  | enum1_done cnt hph =>
      obtain ⟨⟨consumed, hsplit, hcnt, hlog⟩, htot, henq, hq, hcl, hcc, hdn, hsm⟩ :=
        hp1 _ _ hph
      rw [List.append_nil] at hsplit
      subst hsplit
      refine ⟨fun rem' cnt' h' => ?_, fun rem' h' => ?_, fun h' => ?_,
        fun h' => ?_⟩ <;> simp only [] at h' <;> try simp at h'
      subst h'
      refine ⟨⟨[], by simp, ?_, ?_⟩, by simp [hcnt], hcl, hcc, hdn, hsm⟩
      · simpa [validObjects] using henq
      · rw [logListErrors_append, hlog]
        simp [logListErrors, LogEntry.isListError, countErr]
  | enum2_err e rest msg hph herr =>
      obtain ⟨⟨consumed, hsplit, henq, hlog⟩, htot, hcl, hcc, hdn, hsm⟩ :=
        hp2 _ hph
      refine ⟨fun rem' cnt' h' => ?_, fun rem' h' => ?_, fun h' => ?_,
        fun h' => ?_⟩ <;> simp only [] at h' <;> try simp at h'
      subst h'
      refine ⟨⟨consumed ++ [e], ?_, ?_, ?_⟩, htot, hcl, hcc, hdn, hsm⟩
      · simp [hsplit]
      · rw [validObjects_append, validObjects_singleton_err herr, henq,
          List.append_nil]
      · rw [logListErrors_append, countErr_append, countErr_singleton_err herr,
          hlog]
        simp [logListErrors, LogEntry.isListError]
        ring
  | enum2_send e rest hph hok hroom =>
      obtain ⟨⟨consumed, hsplit, henq, hlog⟩, htot, hcl, hcc, hdn, hsm⟩ :=
        hp2 _ hph
      refine ⟨fun rem' cnt' h' => ?_, fun rem' h' => ?_, fun h' => ?_,
        fun h' => ?_⟩ <;> simp only [] at h' <;> try simp at h'
      subst h'
      refine ⟨⟨consumed ++ [e], ?_, ?_, ?_⟩, htot, hcl, hcc, hdn, hsm⟩
      · simp [hsplit]
      · rw [validObjects_append, validObjects_singleton_ok hok, henq]
      · rw [countErr_append, countErr_singleton_ok hok, hlog]
        omega
  | enum_close hph =>
      obtain ⟨⟨consumed, hsplit, henq, hlog⟩, htot, hcl, hcc, hdn, hsm⟩ :=
        hp2 _ hph
      rw [List.append_nil] at hsplit
      subst hsplit
      refine ⟨fun rem' cnt' h' => ?_, fun rem' h' => ?_, fun h' => ?_,
        fun h' => ?_⟩ <;> simp only [] at h' <;> try simp at h'
      exact ⟨henq, hlog, htot, rfl, by rw [hcc], hdn, hsm⟩
  | enum_doneSignal hph =>
      obtain ⟨henq, hlog, htot, hcl, hcc, hdn, hsm⟩ := hp3 hph
      refine ⟨fun rem' cnt' h' => ?_, fun rem' h' => ?_, fun h' => ?_,
        fun h' => ?_⟩ <;> simp only [] at h' <;> try simp at h'
      exact ⟨henq, hlog, htot, hcl, hcc, rfl⟩
  | worker_take obj q hw hq =>
      refine ⟨fun rem' cnt' h' => ?_, fun rem' h' => ?_, fun h' => ?_,
        fun h' => ?_⟩ <;> simp only [] at h'
      · obtain ⟨_, _, _, hq', _⟩ := hp1 _ _ h'
        rw [hq] at hq'
        simp at hq'
      · obtain ⟨⟨consumed, hsplit, henq, hlog⟩, htot, hcl, hcc, hdn, hsm⟩ :=
          hp2 _ h'
        refine ⟨⟨consumed, hsplit, henq, ?_⟩,
          by rw [processObject_totalFiles, htot], hcl, hcc, hdn, hsm⟩
        rw [logListErrors_append, processObject_logListErrors, hlog]
        omega
      · obtain ⟨henq, hlog, htot, hcl, hcc, hdn, hsm⟩ := hp3 h'
        refine ⟨henq, ?_, by rw [processObject_totalFiles, htot], hcl, hcc,
          hdn, hsm⟩
        rw [logListErrors_append, processObject_logListErrors, hlog]
        omega
      · obtain ⟨henq, hlog, htot, hcl, hcc, hdn⟩ := hp4 h'
        refine ⟨henq, ?_, by rw [processObject_totalFiles, htot], hcl, hcc, hdn⟩
        rw [logListErrors_append, processObject_logListErrors, hlog]
        omega
  | reporter_tick hrep =>
      refine ⟨fun rem' cnt' h' => ?_, fun rem' h' => ?_, fun h' => ?_,
        fun h' => ?_⟩ <;> simp only [] at h'
      · obtain ⟨⟨consumed, hsplit, hcnt, hlog⟩, htot, henq, hq, hcl, hcc, hdn, hsm⟩ :=
          hp1 _ _ h'
        refine ⟨⟨consumed, hsplit, hcnt, ?_⟩, htot, henq, hq, hcl, hcc, hdn, hsm⟩
        rw [logListErrors_append, reporterTick_logListErrors, hlog]
        omega
      · obtain ⟨⟨consumed, hsplit, henq, hlog⟩, htot, hcl, hcc, hdn, hsm⟩ :=
          hp2 _ h'
        refine ⟨⟨consumed, hsplit, henq, ?_⟩, htot, hcl, hcc, hdn, hsm⟩
        rw [logListErrors_append, reporterTick_logListErrors, hlog]
        omega
      · obtain ⟨henq, hlog, htot, hcl, hcc, hdn, hsm⟩ := hp3 h'
        refine ⟨henq, ?_, htot, hcl, hcc, hdn, hsm⟩
        rw [logListErrors_append, reporterTick_logListErrors, hlog]
        omega
      · obtain ⟨henq, hlog, htot, hcl, hcc, hdn⟩ := hp4 h'
        refine ⟨henq, ?_, htot, hcl, hcc, hdn⟩
        rw [logListErrors_append, reporterTick_logListErrors, hlog]
        omega
  | main_summary hdone hsum =>
      refine ⟨fun rem' cnt' h' => ?_, fun rem' h' => ?_, fun h' => ?_,
        fun h' => ?_⟩ <;> simp only [] at h'
      · obtain ⟨_, _, _, _, _, _, hdn, _⟩ := hp1 _ _ h'
        rw [hdone] at hdn
        simp at hdn
      · obtain ⟨_, _, _, _, hdn, _⟩ := hp2 _ h'
        rw [hdone] at hdn
        simp at hdn
      · obtain ⟨_, _, _, _, _, hdn, _⟩ := hp3 h'
        rw [hdone] at hdn
        simp at hdn
      · obtain ⟨henq, hlog, htot, hcl, hcc, hdn⟩ := hp4 h'
        refine ⟨henq, ?_, htot, hcl, hcc, hdn⟩
        rw [logListErrors_append, hlog]
        simp [logListErrors, LogEntry.isListError]

theorem reachable_inv (env : Env) (s : SysState) (hr : Reachable env s) :
    Inv env s := by
  induction hr with
  | refl =>
      refine ⟨fun rem' cnt' h' => ?_, fun rem' h' => ?_, fun h' => ?_,
        fun h' => ?_⟩ <;> simp only [initState] at h' <;> try simp at h'
      obtain ⟨hrem, hcnt'⟩ := h'
      subst hrem hcnt'
      exact ⟨⟨[], by simp, by simp [countValid], by simp [initState, logListErrors, countErr]⟩,
        rfl, rfl, rfl, rfl, rfl, rfl, rfl⟩
  | tail hab hbc ih => exact step_inv env ih hbc

/-- C5: in every run state where the enumerator has signalled
completion, `totalFiles` is exactly the number of error-free entries of
the first listing pass, exactly the error-free entries of the second
pass have been enqueued (in order), `fileChan` has been closed exactly
once, and every erroneous entry of either pass has produced its own
listing-error log line without aborting the pass. -/
theorem enumeration_error_handling (env : Env) (s : SysState)
    (hr : Reachable env s) (hd : s.done = true) :
    s.counters.totalFiles = countValid env.entries1 ∧
    s.enqueued = validObjects env.entries2 ∧
    s.closeCount = 1 ∧ s.closed = true ∧
    logListErrors s.log = countErr env.entries1 + countErr env.entries2 := by
  obtain ⟨hp1, hp2, hp3, hp4⟩ := reachable_inv env s hr
  cases hph : s.phase with
  | pass1 rem cnt =>
      obtain ⟨_, _, _, _, _, _, hdn, _⟩ := hp1 _ _ hph
      rw [hd] at hdn
      simp at hdn
  | pass2 rem =>
      obtain ⟨_, _, _, _, hdn, _⟩ := hp2 _ hph
      rw [hd] at hdn
      simp at hdn
  | doneSend =>
      obtain ⟨_, _, _, _, _, hdn, _⟩ := hp3 hph
      rw [hd] at hdn
      simp at hdn
  | finished =>
      obtain ⟨henq, hlog, htot, hcl, hcc, _⟩ := hp4 hph
      exact ⟨htot, henq, hcc, hcl, hlog⟩

/-- A concrete valid object and a concrete erroneous listing entry. -/
def objA : ObjectInfo := ⟨"a", 10, 0⟩

def entryOkA : ListEntry := ⟨none, objA⟩

def entryErrB : ListEntry := ⟨some "boom", ⟨"x", 1, 0⟩⟩

/-- A concrete run environment: one worker, each listing pass yielding
one valid and one erroneous entry. -/
def envC5 : Env where
  cfg := ⟨1, 5, 50, false⟩
  deleteRes := fun _ => none
  entries1 := [entryErrB, entryOkA]
  entries2 := [entryOkA, entryErrB]

/-- The state of `envC5`'s run after the enumerator has run to
completion while neither the worker nor the reporter was ever
scheduled. -/
def sC5 : SysState where
  phase := .finished
  queue := [objA]
  closed := true
  closeCount := 1
  done := true
  summaried := false
  reporterDone := false
  counters := ⟨1, 0, 0, 0⟩
  enqueued := [objA]
  log := [.listError "boom", .totalCount 1, .listError "boom"]

theorem reachC5 : Reachable envC5 sC5 := by
  refine Relation.ReflTransGen.head
    (Step.enum1_err _ entryErrB [entryOkA] 0 "boom" rfl rfl) ?_
  refine Relation.ReflTransGen.head
    (Step.enum1_ok _ entryOkA [] 0 rfl rfl) ?_
  refine Relation.ReflTransGen.head
    (Step.enum1_done _ 1 rfl) ?_
  refine Relation.ReflTransGen.head
    (Step.enum2_send _ entryOkA [entryErrB] rfl rfl (by decide)) ?_
  refine Relation.ReflTransGen.head
    (Step.enum2_err _ entryErrB [] "boom" rfl rfl) ?_
  refine Relation.ReflTransGen.head
    (Step.enum_close _ rfl) ?_
  refine Relation.ReflTransGen.head
    (Step.enum_doneSignal _ rfl) ?_
  exact Relation.ReflTransGen.refl

theorem enumeration_error_handling_witness :
    Reachable envC5 sC5 ∧ sC5.done = true ∧
    (sC5.counters.totalFiles = countValid envC5.entries1 ∧
     sC5.enqueued = validObjects envC5.entries2 ∧
     sC5.closeCount = 1 ∧ sC5.closed = true ∧
     logListErrors sC5.log = countErr envC5.entries1 + countErr envC5.entries2) :=
  ⟨reachC5, rfl, enumeration_error_handling envC5 sC5 reachC5 rfl⟩

/-- The state of `envC5`'s run after main, woken by `doneChan`, has
printed the final summary — still before the worker was ever
scheduled. -/
def sC1 : SysState where
  phase := .finished
  queue := [objA]
  closed := true
  closeCount := 1
  done := true
  summaried := true
  reporterDone := false
  counters := ⟨1, 0, 0, 0⟩
  enqueued := [objA]
  log := [.listError "boom", .totalCount 1, .listError "boom",
    .summaryLine 1 0 0 0]

/-- C1 (refuted by the code): the orchestrator does not wait for the
workers to finish.  The enumerator signals `doneChan` right after
`close(fileChan)` (lines 210-211) without joining the worker
goroutines, so the run can reach a state in which the final summary
line has been printed reporting `processedFiles = 0` while
`totalFiles = 1` and the queued object is still unprocessed in
`fileChan`. -/
theorem summary_printed_before_workers_finish :
    Reachable envC5 sC1 ∧ sC1.summaried = true ∧
    sC1.counters.processedFiles = 0 ∧ sC1.counters.totalFiles = 1 ∧
    sC1.queue = [objA] ∧
    LogEntry.summaryLine 1 0 0 0 ∈ sC1.log :=
  ⟨Relation.ReflTransGen.tail reachC5 (Step.main_summary _ rfl rfl),
    rfl, rfl, rfl, rfl, by simp [sC1]⟩

/-- C9: with `workers = 0` no worker goroutine is started and
`fileChan` has capacity `0*2 = 0` with no receiver, so once pass 2
reaches a valid entry the enumerator's send blocks forever: whenever
the second listing holds at least one valid entry, no reachable state
has the `doneChan` signal delivered or the final summary printed —
termination of the pipeline needs `workers >= 1`. -/
theorem zero_workers_never_summaries (env : Env) (s : SysState)
    (hw : env.cfg.workers = 0)
    (hvalid : ∃ e ∈ env.entries2, e.err = none)
    (hr : Reachable env s) :
    s.done = false ∧ s.summaried = false := by
  suffices h : s.done = false ∧ s.summaried = false ∧
      s.phase ≠ .doneSend ∧ s.phase ≠ .finished ∧
      (∀ rem, s.phase = .pass2 rem → ∃ e ∈ rem, e.err = none) by
    exact ⟨h.1, h.2.1⟩
  induction hr with
  | refl =>
      refine ⟨rfl, rfl, by simp [initState], by simp [initState], ?_⟩
      intro rem h'
      simp [initState] at h'
  | tail hab hbc ih =>
      obtain ⟨hdn, hsm, hnds, hnf, hpass2⟩ := ih
      cases hbc with
      | enum1_err e rest cnt msg hph herr =>
          exact ⟨hdn, hsm, by simp, by simp, fun rem h' => by simp at h'⟩
      | enum1_ok e rest cnt hph hok =>
          exact ⟨hdn, hsm, by simp, by simp, fun rem h' => by simp at h'⟩
      | enum1_done cnt hph =>
          refine ⟨hdn, hsm, by simp, by simp, ?_⟩
          intro rem h'
          simp only [] at h'
          injection h' with h2
          subst h2
          exact hvalid
      | enum2_err e rest msg hph herr =>
          refine ⟨hdn, hsm, by simp, by simp, ?_⟩
          intro rem h'
          simp only [] at h'
          injection h' with h2
          subst h2
          obtain ⟨x, hxmem, hx⟩ := hpass2 _ hph
          rcases List.mem_cons.1 hxmem with hxe | hxrest
          · subst hxe
            rw [herr] at hx
            simp at hx
          · exact ⟨x, hxrest, hx⟩
      | enum2_send e rest hph hok hroom =>
          rw [hw] at hroom
          simp at hroom
      | enum_close hph =>
          obtain ⟨x, hxmem, _⟩ := hpass2 _ hph
          simp at hxmem
      | enum_doneSignal hph =>
          exact absurd hph hnds
      | worker_take obj q hw0 hq =>
          rw [hw] at hw0
          simp at hw0
      | reporter_tick hrep =>
          exact ⟨hdn, hsm, hnds, hnf, hpass2⟩
      | main_summary hdone hsum =>
          rw [hdn] at hdone
          simp at hdone

/-- A concrete environment with `workers = 0` and a valid object in the
bucket. -/
def env9 : Env where
  cfg := ⟨0, 5, 50, false⟩
  deleteRes := fun _ => none
  entries1 := [entryOkA]
  entries2 := [entryOkA]

/-- `env9`'s run just after pass 1 completed: pass 2 is about to
attempt its first (forever-blocking) send. -/
def s9 : SysState where
  phase := .pass2 [entryOkA]
  queue := []
  closed := false
  closeCount := 0
  done := false
  summaried := false
  reporterDone := false
  counters := ⟨1, 0, 0, 0⟩
  enqueued := []
  log := [.totalCount 1]

theorem reach9 : Reachable env9 s9 := by
  refine Relation.ReflTransGen.head
    (Step.enum1_ok _ entryOkA [] 0 rfl rfl) ?_
  refine Relation.ReflTransGen.head
    (Step.enum1_done _ 1 rfl) ?_
  exact Relation.ReflTransGen.refl

theorem zero_workers_never_summaries_witness :
    env9.cfg.workers = 0 ∧ (∃ e ∈ env9.entries2, e.err = none) ∧
    Reachable env9 s9 ∧ s9.done = false ∧ s9.summaried = false := by
  have hv : ∃ e ∈ env9.entries2, e.err = none := ⟨entryOkA, by simp [env9], rfl⟩
  have h := zero_workers_never_summaries env9 s9 rfl hv reach9
  exact ⟨rfl, hv, reach9, h.1, h.2⟩

/-- C10: when pass 1 finds zero valid objects, `totalFiles` stays 0 for
the whole run, so the progress reporter never emits a progress line and
its exit condition `processed >= total && total > 0` never fires: in
every reachable state the reporter loop is still running and the log
holds no progress line — only process exit ends it. -/
theorem zero_total_reporter_never_ends (env : Env) (s : SysState)
    (h0 : countValid env.entries1 = 0)
    (hr : Reachable env s) :
    s.counters.totalFiles = 0 ∧ s.reporterDone = false ∧
    logProgressCount s.log = 0 := by
  induction hr with
  | refl => exact ⟨rfl, rfl, rfl⟩
  | tail hab hbc ih =>
      obtain ⟨htot, hrd, hlp⟩ := ih
      cases hbc with
      | enum1_err e rest cnt msg hph herr =>
          refine ⟨htot, hrd, ?_⟩
          rw [logProgressCount_append, hlp]
          simp [logProgressCount, LogEntry.isProgress]
      | enum1_ok e rest cnt hph hok =>
          exact ⟨htot, hrd, hlp⟩
      | enum1_done cnt hph =>
          have hinv := reachable_inv env _ hab
          obtain ⟨⟨consumed, hsplit, hcnt, _⟩, _⟩ := hinv.1 _ _ hph
          rw [List.append_nil] at hsplit
          subst hsplit
          refine ⟨hcnt.trans h0, hrd, ?_⟩
          rw [logProgressCount_append, hlp]
          simp [logProgressCount, LogEntry.isProgress]
      | enum2_err e rest msg hph herr =>
          refine ⟨htot, hrd, ?_⟩
          rw [logProgressCount_append, hlp]
          simp [logProgressCount, LogEntry.isProgress]
      | enum2_send e rest hph hok hroom =>
          exact ⟨htot, hrd, hlp⟩
      | enum_close hph =>
          exact ⟨htot, hrd, hlp⟩
      | enum_doneSignal hph =>
          exact ⟨htot, hrd, hlp⟩
      | worker_take obj q hw hq =>
          refine ⟨?_, hrd, ?_⟩
          · rw [processObject_totalFiles]
            exact htot
          · rw [logProgressCount_append, processObject_logProgressCount, hlp]
      | reporter_tick hrep =>
          refine ⟨htot, ?_, ?_⟩
          · rw [htot]
            simp [reporterTick_snd_zero]
          · rw [logProgressCount_append, htot, reporterTick_fst_zero, hlp]
            rfl
      | main_summary hdone hsum =>
          refine ⟨htot, hrd, ?_⟩
          rw [logProgressCount_append, hlp]
          simp [logProgressCount, LogEntry.isProgress]

/-- A concrete environment whose first listing pass yields no valid
entry. -/
def env10 : Env where
  cfg := ⟨1, 5, 50, false⟩
  deleteRes := fun _ => none
  entries1 := [entryErrB]
  entries2 := []

/-- `env10`'s run after one reporter tick and a complete enumeration
and final summary: the reporter loop is still live. -/
def s10 : SysState where
  phase := .finished
  queue := []
  closed := true
  closeCount := 1
  done := true
  summaried := true
  reporterDone := false
  counters := ⟨0, 0, 0, 0⟩
  enqueued := []
  log := [.listError "boom", .totalCount 0, .summaryLine 0 0 0 0]

theorem reach10 : Reachable env10 s10 := by
  refine Relation.ReflTransGen.head
    (Step.enum1_err _ entryErrB [] 0 "boom" rfl rfl) ?_
  refine Relation.ReflTransGen.head
    (Step.reporter_tick _ rfl) ?_
  refine Relation.ReflTransGen.head
    (Step.enum1_done _ 0 rfl) ?_
  refine Relation.ReflTransGen.head
    (Step.enum_close _ rfl) ?_
  refine Relation.ReflTransGen.head
    (Step.enum_doneSignal _ rfl) ?_
  refine Relation.ReflTransGen.head
    (Step.main_summary _ rfl rfl) ?_
  exact Relation.ReflTransGen.refl

theorem zero_total_reporter_never_ends_witness :
    countValid env10.entries1 = 0 ∧ Reachable env10 s10 ∧
    (s10.counters.totalFiles = 0 ∧ s10.reporterDone = false ∧
     logProgressCount s10.log = 0) :=
  ⟨by decide, reach10,
    zero_total_reporter_never_ends env10 s10 (by decide) reach10⟩

end MinioCleaner
